import Mathlib

set_option maxRecDepth 40000
set_option maxHeartbeats 1000000

/-!
Shallow embedding of the LiteRT-LM container tools
(`litertlm_core.py`, `litertlm_writer.py`, `litertlm_peek.py`).

The writer lays out magic bytes, a version triple, block padding, section
payloads and a structured header; the reader recovers the header.  External
collaborators (the flatbuffers-style header codec, the protobuf text codec,
the zlib compressor) are not part of the sources under `src/`; they appear
as function parameters, with the codec contract taken from the spec.

Python floating-point values are modelled as exact decimal literals
(`PyFloat` over `Rat`); the claims at issue concern value classification
and literal recovery, not IEEE rounding.  String lowering and whitespace
are modelled at ASCII granularity.
-/

/-! ## Constants from `litertlm_core.py` -/

def LITERTLM_MAJOR_VERSION : Nat := 1

def LITERTLM_MINOR_VERSION : Nat := 3

def LITERTLM_PATCH_VERSION : Nat := 0

def BLOCK_SIZE : Nat := 16 * 1024

def HEADER_BEGIN_BYTE_OFFSET : Nat := 32

def HEADER_END_LOCATION_BYTE_OFFSET : Nat := 24

def K_TOKENIZER_SECTION_NAME : String := "tokenizer"

def K_TFLITE_SECTION_NAME : String := "tflite"

def K_LLM_METADATA_SECTION_NAME : String := "llm_metadata"

def K_BINARY_DATA_SECTION_NAME : String := "binary_data"

def K_HF_TOKENIZER_ZLIB_SECTION_NAME : String := "hf_tokenizer_zlib"

/-- Constants `INT64_MAX` from `litertlm_writer.py`. -/
def INT64_MAX : Int := 9223372036854775807

/-- Constant `INT64_MIN` from `litertlm_writer.py`. -/
def INT64_MIN : Int := -9223372036854775808

/-! ## Python string helpers used by the sources -/

/-- Index of the last occurrence of `c` in `l` (Python `str.rfind`),
`none` when absent. -/
def rfindIdx (c : Char) (l : List Char) : Option Nat :=
  match l.reverse.findIdx? (· = c) with
  | none => none
  | some k => some (l.length - 1 - k)

/-- Python `str.strip()` restricted to ASCII whitespace. -/
def pyStrip (l : List Char) : List Char :=
  ((l.dropWhile Char.isWhitespace).reverse.dropWhile Char.isWhitespace).reverse

/-- Optional leading sign of a Python numeric literal; returns
(is-negative, remainder). -/
def pySign : List Char → Bool × List Char
  | '+' :: rest => (false, rest)
  | '-' :: rest => (true, rest)
  | l => (false, l)

/-- ASCII lowering of a character list (Python `str.lower`, ASCII model). -/
def lowerAscii (l : List Char) : List Char := l.map Char.toLower

/-- ASCII lowering of a string. -/
def pyLower (s : String) : String := String.mk (lowerAscii s.data)

/-- Python `str.endswith`, modelled over the character lists. -/
def pyEndsWith (s suffixStr : String) : Bool :=
  suffixStr.data.isSuffixOf s.data

deriving instance DecidableEq for Except

/-- No two consecutive underscores (Python numeric-literal grouping rule). -/
def noDoubleUnderscore : List Char → Bool
  | '_' :: '_' :: _ => false
  | _ :: rest => noDoubleUnderscore rest
  | [] => true

/-- Numeric value of a list of decimal digit characters. -/
def digitsVal (l : List Char) : Nat :=
  l.foldl (fun a c => 10 * a + (c.toNat - 48)) 0

/-- A Python digit group: non-empty decimal digits with single embedded
underscores allowed, no leading/trailing underscore. -/
def pyDigits (l : List Char) : Option Nat :=
  if l ≠ [] ∧ l.head? ≠ some '_' ∧ l.getLast? ≠ some '_' ∧
      noDoubleUnderscore l ∧ l.all (fun c => c.isDigit || c == '_')
  then some (digitsVal (l.filter Char.isDigit))
  else none

/-- Split a character list at every occurrence of `sep`
(Python `str.split(sep)` for a one-character separator). -/
def splitCh (sep : Char) : List Char → List (List Char)
  | [] => [[]]
  | c :: rest =>
    match splitCh sep rest with
    | [] => [[c]]
    | g :: gs => if c == sep then [] :: g :: gs else (c :: g) :: gs

/-- Split at the first character satisfying `p`
(Python `str.split(sep, 1)` shape); `none` when no such character occurs. -/
def splitOnceP (p : Char → Bool) : List Char → Option (List Char × List Char)
  | [] => none
  | c :: rest =>
    if p c then some ([], rest)
    else
      match splitOnceP p rest with
      | none => none
      | some (a, b) => some (c :: a, b)

/-- Split at the first occurrence of `sep` (Python `str.split(sep, 1)`). -/
def splitOnce (sep : Char) (l : List Char) : Option (List Char × List Char) :=
  splitOnceP (· == sep) l

/-! ## Python `int()` and `float()` literal parsing (ASCII model) -/

/-- Python `int(s)`: strip whitespace, optional sign, one digit group. -/
def pyIntParse (s : String) : Option Int :=
  let l := pyStrip s.data
  let sign := pySign l
  match pyDigits sign.2 with
  | none => none
  | some v => some (if sign.1 then -(v : Int) else (v : Int))

/-- The value classes a Python `float()` call can produce, with finite
values kept as exact rationals. -/
inductive PyFloat where
  | finite (q : Rat)
  | infinity (neg : Bool)
  | nan
deriving DecidableEq

/-- Value of a finite Python float literal: sign, mantissa digits `m`
(integer and fractional digits concatenated), fractional digit count and
decimal exponent. -/
def pyFinite (neg : Bool) (m : Nat) (fracLen : Nat) (e : Int) : Rat :=
  let d : Int := e - (fracLen : Int)
  let base : Rat :=
    if 0 ≤ d then mkRat ((m : Int) * (10 : Int) ^ d.toNat) 1
    else mkRat (m : Int) ((10 : Nat) ^ (-d).toNat)
  if neg then -base else base

/-- Mantissa of a float literal: digits, optionally split by one dot; at
least one digit required.  Returns the concatenated digit value and the
number of fractional digits. -/
def pyMantissa (l : List Char) : Option (Nat × Nat) :=
  match splitOnce '.' l with
  | none => (pyDigits l).map (fun v => (v, 0))
  | some (ip, fp) =>
    if ip = [] ∧ fp = [] then none
    else
      match (if ip = [] then some 0 else pyDigits ip),
            (if fp = [] then some 0 else pyDigits fp) with
      | some iv, some fv =>
        some (iv * 10 ^ (fp.filter Char.isDigit).length + fv,
              (fp.filter Char.isDigit).length)
      | _, _ => none

/-- Exponent part of a float literal: optional sign, one digit group. -/
def pyExpParse (l : List Char) : Option Int :=
  let sign := pySign l
  match pyDigits sign.2 with
  | none => none
  | some v => some (if sign.1 then -(v : Int) else (v : Int))

/-- Python `float(s)`: strip, optional sign, `inf`/`infinity`/`nan`
(case-insensitive) or a decimal mantissa with optional exponent. -/
def pyFloatParse (s : String) : Option PyFloat :=
  let l := pyStrip s.data
  let sign := pySign l
  let l1 := sign.2
  if lowerAscii l1 = "inf".data ∨ lowerAscii l1 = "infinity".data then
    some (.infinity sign.1)
  else if lowerAscii l1 = "nan".data then some .nan
  else
    let parts :=
      match splitOnceP (fun c => c == 'e' || c == 'E') l1 with
      | none => (l1, none)
      | some (m, e) => (m, some e)
    match pyMantissa parts.1 with
    | none => none
    | some mf =>
      match parts.2 with
      | none => some (.finite (pyFinite sign.1 mf.1 mf.2 0))
      | some estr =>
        match pyExpParse estr with
        | none => none
        | some e => some (.finite (pyFinite sign.1 mf.1 mf.2 e))

/-! ## Metadata values (`_parse_metadata_value`) -/

/-- The dynamic type of a parsed metadata value. -/
inductive MetaValue where
  | bool (b : Bool)
  | int (n : Int)
  | float (f : PyFloat)
  | str (s : String)
deriving DecidableEq

/-- `_parse_metadata_value` from `litertlm_writer.py`: case-insensitive
`true`/`false`, else `int(...)`, else `float(...)`, else the string. -/
def parse_metadata_value (value_str : String) : MetaValue :=
  if pyLower value_str = "true" then .bool true
  else if pyLower value_str = "false" then .bool false
  else
    match pyIntParse value_str with
    | some n => .int n
    | none =>
      match pyFloatParse value_str with
      | some q => .float q
      | none => .str value_str

/-! ## The metadata mini-language parser (`parse_metadata_string`) -/

/-- One parsed metadata section: name and ordered unique-key pairs. -/
abbrev MetaEntry := String × List (String × MetaValue)

/-- Key/value segments of one section: each must contain `=`; keys must
not repeat; values typed by `parse_metadata_value`.  `acc` holds the
pairs parsed so far (Python's insertion-ordered dict). -/
def parseKVs : List (List Char) → List (String × MetaValue) →
    Except String (List (String × MetaValue))
  | [], acc => .ok acc
  | kv :: rest, acc =>
    match splitOnce '=' kv with
    | none => .error ("Invalid key-value pair: " ++ String.mk kv)
    | some kvp =>
      let key := String.mk kvp.1
      if (acc.map Prod.fst).contains key then
        .error ("Duplicate key in section metadata: " ++ key)
      else
        parseKVs rest (acc ++ [(key, parse_metadata_value (String.mk kvp.2))])

/-- Section segments of the metadata string: empty segments are skipped;
a segment must split at `:` into a name and a (possibly empty) pair
list. -/
def parseSections : List (List Char) → Except String (List MetaEntry)
  | [] => .ok []
  | part :: rest =>
    if part = [] then parseSections rest
    else
      match splitOnce ':' part with
      | none => .error ("Invalid section metadata format: " ++ String.mk part)
      | some nk =>
        match (if nk.2 = [] then Except.ok [] else parseKVs (splitCh ',' nk.2) []) with
        | .error e => .error e
        | .ok pairs =>
          match parseSections rest with
          | .error e => .error e
          | .ok restL => .ok ((String.mk nk.1, pairs) :: restL)

/-- `parse_metadata_string` from `litertlm_writer.py`. -/
def parse_metadata_string (metadata_str : String) : Except String (List MetaEntry) :=
  if metadata_str = "" then .ok []
  else parseSections (splitCh ';' metadata_str.data)

/-! ## Section classification (`litertlm_core.py`) -/

/-- The section data-type tags produced by the tools
(from the schema's `AnySectionDataType`). -/
inductive AnySectionDataType where
  | NONE
  | GenericBinaryData
  | TFLiteModel
  | SP_Tokenizer
  | LlmMetadataProto
  | HF_Tokenizer_Zlib
deriving DecidableEq

/-- `get_file_extension` from `litertlm_core.py`, i.e.
`os.path.splitext(filename)[1]` with POSIX separators: the suffix from the
last dot, provided that dot comes after the last `/` and a non-dot
character precedes it within the basename. -/
def get_file_extension (filename : String) : String :=
  let l := filename.data
  match rfindIdx '.' l with
  | none => ""
  | some dotIdx =>
    let start : Nat :=
      match rfindIdx '/' l with
      | none => 0
      | some sepIdx => sepIdx + 1
    if start ≤ dotIdx ∧ ((l.drop start).take (dotIdx - start)).any (· ≠ '.') then
      String.mk (l.drop dotIdx)
    else ""

/-- `get_section_type_and_name` from `litertlm_core.py`. -/
def get_section_type_and_name (filename : String) : AnySectionDataType × String :=
  let ext := get_file_extension filename
  if ext = ".tflite" then (.TFLiteModel, K_TFLITE_SECTION_NAME)
  else if ext = ".pb" ∨ ext = ".proto" ∨ ext = ".pbtext" ∨ ext = ".prototext" then
    (.LlmMetadataProto, K_LLM_METADATA_SECTION_NAME)
  else if ext = ".spiece" then (.SP_Tokenizer, K_TOKENIZER_SECTION_NAME)
  else if pyEndsWith filename "tokenizer.json" then
    (.HF_Tokenizer_Zlib, K_HF_TOKENIZER_ZLIB_SECTION_NAME)
  else (.GenericBinaryData, K_BINARY_DATA_SECTION_NAME)

example : get_file_extension "archive.tar.gz" = ".gz" := by decide
example : get_file_extension ".hidden" = "" := by decide
example : get_file_extension "noextension" = "" := by decide
example : get_file_extension "a/.tflite" = "" := by decide
example : get_section_type_and_name "model.tflite" = (.TFLiteModel, "tflite") := by decide
example : get_section_type_and_name ".tflite" = (.GenericBinaryData, "binary_data") := by decide
example : get_section_type_and_name "tokenizer.json" = (.HF_Tokenizer_Zlib, "hf_tokenizer_zlib") := by decide
example : parse_metadata_value "true" = .bool true := by decide
example : parse_metadata_value "1" = .int 1 := by decide
example : parse_metadata_value "1.5" = .float (.finite (mkRat 3 2)) := by decide
example : parse_metadata_value "hi" = .str "hi" := by decide
example : parse_metadata_string "" = .ok [] := by decide
example : parse_metadata_string "a:k=1" = .ok [("a", [("k", .int 1)])] := by decide
example : parse_metadata_string "ab" = .error "Invalid section metadata format: ab" := by decide
example : parse_metadata_string "a:" = .ok [("a", [])] := by decide
example : parse_metadata_string "a:k=1,k=2" = .error "Duplicate key in section metadata: k" := by decide
example : parse_metadata_string "a:k" = .error "Invalid key-value pair: k" := by decide

/-! ## The container writer (`litertlm_write`) and reader
(`read_litertlm_header`)

The output file is modelled as its byte list; the writer's file handle
position always equals the list length during the sequential phase, and
the two fixed-offset patches at the end are modelled by `writeAt`. -/

/-- One input file: its path string and its raw content bytes. -/
structure InputFile where
  name : String
  content : List Nat
deriving DecidableEq

/-- The typed values the writer can place in a header key/value pair
(the subset of the schema's `VData` union that
`create_key_value_pair` produces). -/
inductive VData where
  | bool (b : Bool)
  | int64 (n : Int)
  | double (f : PyFloat)
  | string (s : String)
deriving DecidableEq

/-- A header key/value pair: key plus exactly one tagged value. -/
structure KeyValuePair where
  key : String
  value : VData
deriving DecidableEq

/-- A decoded header section object: metadata items, absolute begin/end
offsets, and the data-type tag. -/
structure SectionObject where
  items : List KeyValuePair
  beginOffset : Nat
  endOffset : Nat
  dataType : AnySectionDataType
deriving DecidableEq

/-- The decoded header root: system metadata plus the ordered sections. -/
structure HeaderData where
  systemMetadata : List KeyValuePair
  sections : List SectionObject
deriving DecidableEq

/-- The error conditions `litertlm_write` can raise (all `ValueError` in
the source, distinguished here by their messages). -/
inductive WriteError where
  | noInputFiles
  | metadataFormat (msg : String)
  | protoParseFailure (filename : String)
  | nameMismatch (metaName sectionName : String) (index : Nat)
  | intOutOfRange (n : Int)
  | headerTooBig
deriving DecidableEq

/-- `create_key_value_pair` from `litertlm_writer.py`: dispatch on the
dynamic type of the value; integers must fit in `Int64`. -/
def create_key_value_pair (key : String) (value : MetaValue) :
    Except WriteError KeyValuePair :=
  match value with
  | .bool b => .ok ⟨key, .bool b⟩
  | .int n =>
    if INT64_MIN ≤ n ∧ n ≤ INT64_MAX then .ok ⟨key, .int64 n⟩
    else .error (.intOutOfRange n)
  | .float f => .ok ⟨key, .double f⟩
  | .str s => .ok ⟨key, .string s⟩

/-- Little-endian encoding of a 32-bit value (`to_bytes(4, "little")`). -/
def u32le (n : Nat) : List Nat :=
  [n % 256, n / 256 % 256, n / 65536 % 256, n / 16777216 % 256]

/-- Little-endian encoding of a 64-bit value (`to_bytes(8, "little")`). -/
def u64le (n : Nat) : List Nat :=
  [n % 256, n / 256 % 256, n / 65536 % 256, n / 16777216 % 256,
   n / 4294967296 % 256, n / 1099511627776 % 256,
   n / 281474976710656 % 256, n / 72057594037927936 % 256]

/-- Little-endian byte-list decoding (`struct.unpack("<...")`). -/
def bytesLE (l : List Nat) : Nat :=
  l.foldr (fun b acc => b + 256 * acc) 0

/-- The 8-byte magic literal `b"LITERTLM"`. -/
def magicBytes : List Nat := [76, 73, 84, 69, 82, 84, 76, 77]

/-- `write_padding` from `litertlm_writer.py`: append zero bytes until the
stream position is a multiple of `block`. -/
def write_padding (d : List Nat) (block : Nat) : List Nat :=
  d ++ List.replicate ((block - d.length % block) % block) 0

/-- Overwrite the bytes of `d` starting at `pos` with `bs`
(an `f.seek(pos); f.write(bs)` pair), zero-extending if `pos` is past the
end and keeping the remainder of `d` past the written region. -/
def writeAt (d : List Nat) (pos : Nat) (bs : List Nat) : List Nat :=
  d.take pos ++ List.replicate (pos - d.length) 0 ++ bs ++ d.drop (pos + bs.length)

/-- The bytes written for one section payload.  `protoParse` stands for
`text_format.Parse` plus `SerializeToString` on the LlmMetadata proto and
`zlibCompress` for `zlib.compress`; both are external collaborators passed
as parameters (`none` from `protoParse` models a text-parse failure). -/
def buildPayload (protoParse : List Nat → Option (List Nat))
    (zlibCompress : List Nat → List Nat)
    (t : AnySectionDataType) (file : InputFile) : Option (List Nat) :=
  if t = .LlmMetadataProto then
    let ext := get_file_extension file.name
    if ext = ".pbtext" ∨ ext = ".prototext" then protoParse file.content
    else some file.content
  else if t = .HF_Tokenizer_Zlib then
    some (u64le file.content.length ++ zlibCompress file.content)
  else some file.content

/-- Classification data recorded for one written section: type, canonical
name, and the begin/end offsets of its payload. -/
structure SectionInfo where
  dataType : AnySectionDataType
  name : String
  beginOffset : Nat
  endOffset : Nat
deriving DecidableEq

/-- The section-writing loop of `litertlm_write`: classify each input,
append its payload, record begin/end offsets, pad to the block boundary
after every section.  Returns the grown file alongside the per-section
records (the file written so far also on failure). -/
def writeSections (protoParse : List Nat → Option (List Nat))
    (zlibCompress : List Nat → List Nat) (d : List Nat) :
    List InputFile → List Nat × Except WriteError (List SectionInfo)
  | [] => (d, .ok [])
  | file :: rest =>
    let tn := get_section_type_and_name file.name
    match buildPayload protoParse zlibCompress tn.1 file with
    | none => (d, .error (.protoParseFailure file.name))
    | some bs =>
      let d2 := write_padding (d ++ bs) BLOCK_SIZE
      match writeSections protoParse zlibCompress d2 rest with
      | (d3, .error e) => (d3, .error e)
      | (d3, .ok infos) =>
        (d3, .ok (⟨tn.1, tn.2, d.length, d.length + bs.length⟩ :: infos))

/-- The `for key, value in kv_dict.items()` loop of `litertlm_write`:
encode each pair in order, stopping at the first failing pair. -/
def mapPairs : List (String × MetaValue) → Except WriteError (List KeyValuePair)
  | [] => .ok []
  | kv :: rest =>
    match create_key_value_pair kv.1 kv.2 with
    | .error e => .error e
    | .ok p =>
      match mapPairs rest with
      | .error e => .error e
      | .ok ps => .ok (p :: ps)

/-- The section-metadata association loop of `litertlm_write` (index `i`
is the absolute section index): the `i`-th metadata entry, when present,
must name the classified section name, else a name-mismatch error; its
pairs are encoded by `create_key_value_pair`; absent entries give an
empty item list. -/
def buildSectionObjects (entries : List MetaEntry) :
    List SectionInfo → Nat → Except WriteError (List SectionObject)
  | [], _ => .ok []
  | info :: rest, i =>
    match entries.get? i with
    | none =>
      match buildSectionObjects entries rest (i + 1) with
      | .error e => .error e
      | .ok objs => .ok (⟨[], info.beginOffset, info.endOffset, info.dataType⟩ :: objs)
    | some entry =>
      if entry.1 ≠ info.name then .error (.nameMismatch entry.1 info.name i)
      else
        match mapPairs entry.2 with
        | .error e => .error e
        | .ok items =>
          match buildSectionObjects entries rest (i + 1) with
          | .error e => .error e
          | .ok objs =>
            .ok (⟨items, info.beginOffset, info.endOffset, info.dataType⟩ :: objs)

/-- Header construction in `litertlm_write`: the fixed system-metadata
entry plus the section objects. -/
def buildHeader (infos : List SectionInfo) (entries : List MetaEntry) :
    Except WriteError HeaderData :=
  match create_key_value_pair "author" (.str "The ODML Authors") with
  | .error e => .error e
  | .ok sys =>
    match buildSectionObjects entries infos 0 with
    | .error e => .error e
    | .ok objs => .ok ⟨[sys], objs⟩

/-- The 20 preamble bytes: magic plus the three little-endian version
words. -/
def preambleBytes : List Nat :=
  magicBytes ++ u32le LITERTLM_MAJOR_VERSION ++ u32le LITERTLM_MINOR_VERSION ++
    u32le LITERTLM_PATCH_VERSION

/-- The file after steps 0 and 1 of the writer: preamble padded to the
first block boundary. -/
def preambleFile : List Nat := write_padding preambleBytes BLOCK_SIZE

/-- Steps 2-7 of `litertlm_write`, after metadata parsing.

Modelled from the spec: the structured-table (flatbuffers) header codec is
generated schema code outside `src/`; per the spec's codec contract the
encoder is an arbitrary parameter `enc : HeaderData → List Nat` ("produce a
single contiguous byte buffer representing the serialized header"), and
theorems that need the decoder assume the spec's round-trip property.

Returns the output file bytes (`none` when the error precedes opening the
output path) and the result: the decoded-form header on success, the
raised error otherwise. -/
def litertlm_write_core (protoParse : List Nat → Option (List Nat))
    (zlibCompress : List Nat → List Nat) (enc : HeaderData → List Nat)
    (input_files : List InputFile) (entries : List MetaEntry) :
    Option (List Nat) × Except WriteError HeaderData :=
  if input_files.isEmpty then (none, .error .noInputFiles)
  else
    match writeSections protoParse zlibCompress preambleFile input_files with
    | (f1, .error e) => (some f1, .error e)
    | (f1, .ok infos) =>
      match buildHeader infos entries with
      | .error e => (some f1, .error e)
      | .ok h =>
        let header_data := enc h
        let f2 := writeAt f1 HEADER_BEGIN_BYTE_OFFSET header_data
        let header_end_offset := HEADER_BEGIN_BYTE_OFFSET + header_data.length
        if BLOCK_SIZE < header_end_offset then (some f2, .error .headerTooBig)
        else
          (some (writeAt f2 HEADER_END_LOCATION_BYTE_OFFSET (u64le header_end_offset)),
           .ok h)

/-- `litertlm_write` from `litertlm_writer.py`: reject an empty input
list, parse the metadata string, then run the layout pipeline. -/
def litertlm_write (protoParse : List Nat → Option (List Nat))
    (zlibCompress : List Nat → List Nat) (enc : HeaderData → List Nat)
    (input_files : List InputFile) (section_metadata_str : String) :
    Option (List Nat) × Except WriteError HeaderData :=
  if input_files.isEmpty then (none, .error .noInputFiles)
  else
    match parse_metadata_string section_metadata_str with
    | .error e => (none, .error (.metadataFormat e))
    | .ok entries => litertlm_write_core protoParse zlibCompress enc input_files entries

/-- Bytes `pos .. pos+n` of a file (an `f.seek(pos); f.read(n)` pair). -/
def extractBytes (d : List Nat) (pos n : Nat) : List Nat :=
  (d.drop pos).take n

/-- `read_litertlm_header` from `litertlm_peek.py`: check the magic,
read the version triple, the header-end offset at byte 24, and decode the
header region starting at byte 32.  `dec` is the spec-modelled
structured-table decoder (see `litertlm_write_core`). -/
def read_litertlm_header (dec : List Nat → HeaderData) (d : List Nat) :
    Except String ((Nat × Nat × Nat) × HeaderData) :=
  if extractBytes d 0 8 ≠ magicBytes then .error "Invalid magic number"
  else
    let major := bytesLE (extractBytes d 8 4)
    let minor := bytesLE (extractBytes d 12 4)
    let patch := bytesLE (extractBytes d 16 4)
    let header_end_offset := bytesLE (extractBytes d HEADER_END_LOCATION_BYTE_OFFSET 8)
    let header_data :=
      extractBytes d HEADER_BEGIN_BYTE_OFFSET (header_end_offset - HEADER_BEGIN_BYTE_OFFSET)
    .ok ((major, minor, patch), dec header_data)

/-! ## Basic facts about the byte-level primitives -/

theorem preambleBytes_length : preambleBytes.length = 20 := by decide

theorem preambleFile_length : preambleFile.length = 16384 := by
  rw [preambleFile, write_padding, List.length_append, List.length_replicate,
    preambleBytes_length]
  decide

theorem u32le_length (n : Nat) : (u32le n).length = 4 := rfl

theorem u64le_length (n : Nat) : (u64le n).length = 8 := rfl

theorem bytesLE_u32le (n : Nat) (h : n < 4294967296) : bytesLE (u32le n) = n := by
  simp only [bytesLE, u32le, List.foldr]
  omega

theorem bytesLE_u64le (n : Nat) (h : n < 18446744073709551616) : bytesLE (u64le n) = n := by
  simp only [bytesLE, u64le, List.foldr]
  omega

theorem write_padding_length_mod (d : List Nat) :
    (write_padding d BLOCK_SIZE).length % BLOCK_SIZE = 0 := by
  rw [write_padding, List.length_append, List.length_replicate, BLOCK_SIZE]
  omega

theorem write_padding_le_length (d : List Nat) (b : Nat) :
    d.length ≤ (write_padding d b).length := by
  rw [write_padding, List.length_append]
  omega

theorem length_writeAt (d : List Nat) (pos : Nat) (bs : List Nat) :
    (writeAt d pos bs).length = max d.length (pos + bs.length) := by
  simp only [writeAt, List.length_append, List.length_take, List.length_replicate,
    List.length_drop]
  omega

theorem writeAt_eq_of_le (d : List Nat) (pos : Nat) (bs : List Nat) (h : pos ≤ d.length) :
    writeAt d pos bs = d.take pos ++ (bs ++ d.drop (pos + bs.length)) := by
  simp [writeAt, Nat.sub_eq_zero_of_le h]

theorem extract_append_left (A B : List Nat) (p n : Nat) (h : p + n ≤ A.length) :
    extractBytes (A ++ B) p n = extractBytes A p n := by
  simp only [extractBytes, List.drop_append_eq_append_drop, List.take_append_eq_append_take]
  have h1 : (A.drop p).length = A.length - p := List.length_drop ..
  have h2 : p - A.length = 0 := by omega
  have h3 : n - (A.drop p).length = 0 := by omega
  simp [h2, h3]
  exact Or.inl (by omega)

theorem extract_writeAt_self (d : List Nat) (pos : Nat) (bs : List Nat)
    (h : pos ≤ d.length) :
    extractBytes (writeAt d pos bs) pos bs.length = bs := by
  rw [writeAt_eq_of_le d pos bs h, extractBytes]
  rw [List.drop_left' (by rw [List.length_take]; omega)]
  exact List.take_left ..

theorem extract_writeAt_before (d : List Nat) (pos : Nat) (bs : List Nat) (p n : Nat)
    (hd : pos ≤ d.length) (hp : p + n ≤ pos) :
    extractBytes (writeAt d pos bs) p n = extractBytes d p n := by
  rw [writeAt_eq_of_le d pos bs hd]
  rw [extract_append_left _ _ p n (by rw [List.length_take]; omega)]
  simp only [extractBytes, List.drop_take, List.take_take]
  congr 1
  omega

theorem extract_writeAt_after (d : List Nat) (pos : Nat) (bs : List Nat) (p n : Nat)
    (hd : pos ≤ d.length) (hp : pos + bs.length ≤ p) :
    extractBytes (writeAt d pos bs) p n = extractBytes d p n := by
  rw [writeAt_eq_of_le d pos bs hd, ← List.append_assoc, extractBytes,
    List.drop_append_eq_append_drop]
  have hlen : (d.take pos ++ bs).length = pos + bs.length := by
    rw [List.length_append, List.length_take]
    omega
  rw [List.drop_eq_nil_of_le (by omega), List.nil_append, List.drop_drop, hlen, extractBytes]
  congr 2
  omega

/-! ## Structure of the section-writing loop -/

theorem writeSections_nil (pp : List Nat → Option (List Nat)) (z : List Nat → List Nat)
    (d : List Nat) : writeSections pp z d [] = (d, .ok []) := rfl

theorem writeSections_cons_some (pp : List Nat → Option (List Nat)) (z : List Nat → List Nat)
    (d : List Nat) (file : InputFile) (rest : List InputFile) (bs d3 : List Nat)
    (infos : List SectionInfo)
    (hb : buildPayload pp z (get_section_type_and_name file.name).1 file = some bs)
    (hr : writeSections pp z (write_padding (d ++ bs) BLOCK_SIZE) rest = (d3, .ok infos)) :
    writeSections pp z d (file :: rest) =
      (d3, .ok (⟨(get_section_type_and_name file.name).1, (get_section_type_and_name file.name).2,
                 d.length, d.length + bs.length⟩ :: infos)) := by
  rw [writeSections, hb]
  dsimp only
  rw [hr]

theorem writeSections_ok_cases (pp : List Nat → Option (List Nat)) (z : List Nat → List Nat)
    (d : List Nat) (file : InputFile) (rest : List InputFile) (d' : List Nat)
    (infos : List SectionInfo)
    (h : writeSections pp z d (file :: rest) = (d', .ok infos)) :
    ∃ bs infos',
      buildPayload pp z (get_section_type_and_name file.name).1 file = some bs ∧
      writeSections pp z (write_padding (d ++ bs) BLOCK_SIZE) rest = (d', .ok infos') ∧
      infos = ⟨(get_section_type_and_name file.name).1, (get_section_type_and_name file.name).2,
               d.length, d.length + bs.length⟩ :: infos' := by
  rw [writeSections] at h
  cases hb : buildPayload pp z (get_section_type_and_name file.name).1 file with
  | none =>
    rw [hb] at h
    exact absurd (congrArg Prod.snd h) (by simp)
  | some bs =>
    rw [hb] at h
    dsimp only at h
    cases hr : writeSections pp z (write_padding (d ++ bs) BLOCK_SIZE) rest with
    | mk d3 r =>
      rw [hr] at h
      cases r with
      | error e =>
        exact absurd (congrArg Prod.snd h) (by simp)
      | ok infos' =>
        have h1 : d3 = d' := congrArg Prod.fst h
        have h2 := congrArg Prod.snd h
        simp only [Except.ok.injEq] at h2
        exact ⟨bs, infos', rfl, by rw [hr, h1], h2.symm⟩

theorem writeSections_extends (pp : List Nat → Option (List Nat)) (z : List Nat → List Nat) :
    ∀ (files : List InputFile) (d d' : List Nat) (infos : List SectionInfo),
      writeSections pp z d files = (d', .ok infos) → ∃ t, d' = d ++ t
  | [], d, d', infos, h => by
    rw [writeSections_nil] at h
    have h1 : d = d' := congrArg Prod.fst h
    exact ⟨[], by rw [← h1, List.append_nil]⟩
  | file :: rest, d, d', infos, h => by
    obtain ⟨bs, infos', hb, hr, hinfos⟩ := writeSections_ok_cases pp z d file rest d' infos h
    obtain ⟨t, ht⟩ := writeSections_extends pp z rest _ d' infos' hr
    rw [ht, write_padding, List.append_assoc, List.append_assoc]
    exact ⟨_, rfl⟩

theorem writeSections_types (pp : List Nat → Option (List Nat)) (z : List Nat → List Nat) :
    ∀ (files : List InputFile) (d d' : List Nat) (infos : List SectionInfo),
      writeSections pp z d files = (d', .ok infos) →
      infos.map SectionInfo.dataType =
        files.map (fun file => (get_section_type_and_name file.name).1)
  | [], d, d', infos, h => by
    rw [writeSections_nil] at h
    have h2 := congrArg Prod.snd h
    simp only [Except.ok.injEq] at h2
    rw [← h2]
    rfl
  | file :: rest, d, d', infos, h => by
    obtain ⟨bs, infos', hb, hr, hinfos⟩ := writeSections_ok_cases pp z d file rest d' infos h
    have ih := writeSections_types pp z rest _ d' infos' hr
    rw [hinfos, List.map_cons, List.map_cons, ih]

theorem writeSections_names (pp : List Nat → Option (List Nat)) (z : List Nat → List Nat) :
    ∀ (files : List InputFile) (d d' : List Nat) (infos : List SectionInfo),
      writeSections pp z d files = (d', .ok infos) →
      infos.map SectionInfo.name =
        files.map (fun file => (get_section_type_and_name file.name).2)
  | [], d, d', infos, h => by
    rw [writeSections_nil] at h
    have h2 := congrArg Prod.snd h
    simp only [Except.ok.injEq] at h2
    rw [← h2]
    rfl
  | file :: rest, d, d', infos, h => by
    obtain ⟨bs, infos', hb, hr, hinfos⟩ := writeSections_ok_cases pp z d file rest d' infos h
    have ih := writeSections_names pp z rest _ d' infos' hr
    rw [hinfos, List.map_cons, List.map_cons, ih]

theorem writeSections_length (pp : List Nat → Option (List Nat)) (z : List Nat → List Nat)
    (files : List InputFile) (d d' : List Nat) (infos : List SectionInfo)
    (h : writeSections pp z d files = (d', .ok infos)) : infos.length = files.length := by
  have := writeSections_types pp z files d d' infos h
  have h1 := congrArg List.length this
  simpa using h1

theorem writeSections_aligned (pp : List Nat → Option (List Nat)) (z : List Nat → List Nat) :
    ∀ (files : List InputFile) (d d' : List Nat) (infos : List SectionInfo),
      writeSections pp z d files = (d', .ok infos) →
      d.length % BLOCK_SIZE = 0 → BLOCK_SIZE ≤ d.length →
      ∀ info ∈ infos, info.beginOffset % BLOCK_SIZE = 0 ∧ BLOCK_SIZE ≤ info.beginOffset
  | [], d, d', infos, h, hmod, hge => by
    rw [writeSections_nil] at h
    have h2 := congrArg Prod.snd h
    simp only [Except.ok.injEq] at h2
    rw [← h2]
    intro info hmem
    cases hmem
  | file :: rest, d, d', infos, h, hmod, hge => by
    obtain ⟨bs, infos', hb, hr, hinfos⟩ := writeSections_ok_cases pp z d file rest d' infos h
    have hmod2 := write_padding_length_mod (d ++ bs)
    have hge2 : BLOCK_SIZE ≤ (write_padding (d ++ bs) BLOCK_SIZE).length :=
      le_trans hge (le_trans (by rw [List.length_append]; omega)
        (write_padding_le_length (d ++ bs) BLOCK_SIZE))
    have ih := writeSections_aligned pp z rest _ d' infos' hr hmod2 hge2
    intro info hmem
    rw [hinfos] at hmem
    cases hmem with
    | head => exact ⟨hmod, hge⟩
    | tail _ hmem' => exact ih info hmem'

/-! ## Structure of the metadata association and header construction -/

/-- A metadata value the writer can encode without error (integers must
fit in `Int64`; every other type always encodes). -/
def valueEncodable : MetaValue → Prop
  | .int n => INT64_MIN ≤ n ∧ n ≤ INT64_MAX
  | _ => True

theorem create_key_value_pair_ok (k : String) (v : MetaValue) (h : valueEncodable v) :
    ∃ p, create_key_value_pair k v = .ok p := by
  cases v with
  | bool b => exact ⟨_, rfl⟩
  | int n =>
    have h' : INT64_MIN ≤ n ∧ n ≤ INT64_MAX := h
    exact ⟨_, by rw [create_key_value_pair, if_pos h']⟩
  | float f => exact ⟨_, rfl⟩
  | str s => exact ⟨_, rfl⟩

theorem create_key_value_pair_error_shape (k : String) (v : MetaValue) (e : WriteError)
    (h : create_key_value_pair k v = .error e) : ∃ n, e = .intOutOfRange n := by
  cases v with
  | bool b => cases h
  | int n =>
    rw [create_key_value_pair] at h
    by_cases hr : INT64_MIN ≤ n ∧ n ≤ INT64_MAX
    · rw [if_pos hr] at h
      cases h
    · rw [if_neg hr] at h
      injection h with h1
      exact ⟨n, h1.symm⟩
  | float f => cases h
  | str s => cases h

theorem mapPairs_ok (kvs : List (String × MetaValue))
    (h : ∀ kv ∈ kvs, valueEncodable kv.2) : ∃ items, mapPairs kvs = .ok items := by
  induction kvs with
  | nil => exact ⟨[], rfl⟩
  | cons kv rest ih =>
    obtain ⟨p, hp⟩ := create_key_value_pair_ok kv.1 kv.2 (h kv (List.mem_cons_self ..))
    obtain ⟨items, hitems⟩ := ih (fun x hx => h x (List.mem_cons_of_mem _ hx))
    exact ⟨p :: items, by rw [mapPairs, hp, hitems]⟩

theorem mapPairs_error_shape :
    ∀ (kvs : List (String × MetaValue)) (e : WriteError),
      mapPairs kvs = .error e → ∃ n, e = .intOutOfRange n
  | [], e, h => by cases h
  | kv :: rest, e, h => by
    rw [mapPairs] at h
    cases hc : create_key_value_pair kv.1 kv.2 with
    | error e' =>
      rw [hc] at h
      obtain ⟨n, hn⟩ := create_key_value_pair_error_shape kv.1 kv.2 e' hc
      injection h with h1
      exact ⟨n, h1 ▸ hn⟩
    | ok p =>
      rw [hc] at h
      dsimp only at h
      cases hm : mapPairs rest with
      | error e' =>
        rw [hm] at h
        injection h with h1
        exact h1 ▸ mapPairs_error_shape rest e' hm
      | ok ps =>
        rw [hm] at h
        cases h

theorem buildSectionObjects_nil (entries : List MetaEntry) (i : Nat) :
    buildSectionObjects entries [] i = .ok [] := rfl

theorem buildSectionObjects_ok_cases (entries : List MetaEntry) (info : SectionInfo)
    (rest : List SectionInfo) (i : Nat) (objs : List SectionObject)
    (h : buildSectionObjects entries (info :: rest) i = .ok objs) :
    ∃ items objs',
      objs = ⟨items, info.beginOffset, info.endOffset, info.dataType⟩ :: objs' ∧
      buildSectionObjects entries rest (i + 1) = .ok objs' ∧
      (match entries.get? i with
       | none => items = []
       | some entry => entry.1 = info.name ∧ mapPairs entry.2 = .ok items) := by
  rw [buildSectionObjects] at h
  cases hg : entries.get? i with
  | none =>
    rw [hg] at h
    cases hr : buildSectionObjects entries rest (i + 1) with
    | error e =>
      rw [hr] at h
      cases h
    | ok objs' =>
      rw [hr] at h
      exact ⟨[], objs', (Except.ok.injEq .. ▸ h).symm, rfl, rfl⟩
  | some entry =>
    rw [hg] at h
    dsimp only at h
    by_cases hname : entry.1 ≠ info.name
    · rw [if_pos hname] at h
      cases h
    · rw [if_neg hname] at h
      cases hm : mapPairs entry.2 with
      | error e =>
        rw [hm] at h
        cases h
      | ok items =>
        rw [hm] at h
        dsimp only at h
        cases hr : buildSectionObjects entries rest (i + 1) with
        | error e =>
          rw [hr] at h
          cases h
        | ok objs' =>
          rw [hr] at h
          exact ⟨items, objs', (Except.ok.injEq .. ▸ h).symm, rfl,
            not_not.mp hname, hm⟩

theorem buildSectionObjects_spec (entries : List MetaEntry) :
    ∀ (infos : List SectionInfo) (i : Nat) (objs : List SectionObject),
      buildSectionObjects entries infos i = .ok objs →
      objs.length = infos.length ∧
      ∀ j inf obj, infos.get? j = some inf → objs.get? j = some obj →
        obj.dataType = inf.dataType ∧ obj.beginOffset = inf.beginOffset ∧
        obj.endOffset = inf.endOffset ∧
        (match entries.get? (i + j) with
         | none => obj.items = []
         | some entry => entry.1 = inf.name ∧ mapPairs entry.2 = .ok obj.items)
  | [], i, objs, h => by
    have : objs = [] := (Except.ok.injEq .. ▸ h).symm
    subst this
    exact ⟨rfl, fun j inf obj hj => by cases hj⟩
  | info :: rest, i, objs, h => by
    obtain ⟨items, objs', hobjs, hr, hhead⟩ :=
      buildSectionObjects_ok_cases entries info rest i objs h
    obtain ⟨hlen, ih⟩ := buildSectionObjects_spec entries rest (i + 1) objs' hr
    subst hobjs
    refine ⟨by simp [hlen], ?_⟩
    intro j inf obj hj hobj
    cases j with
    | zero =>
      have h1 : info = inf := by simpa using hj
      have h2 : (⟨items, info.beginOffset, info.endOffset, info.dataType⟩ : SectionObject) = obj := by
        simpa using hobj
      subst h1
      subst h2
      exact ⟨rfl, rfl, rfl, by simpa using hhead⟩
    | succ j' =>
      have hj' : rest.get? j' = some inf := by simpa using hj
      have hobj' : objs'.get? j' = some obj := by simpa using hobj
      have := ih j' inf obj hj' hobj'
      have harith : i + 1 + j' = i + (j' + 1) := by omega
      rw [harith] at this
      exact this

theorem buildSectionObjects_offsets (entries : List MetaEntry) :
    ∀ (infos : List SectionInfo) (i : Nat) (objs : List SectionObject),
      buildSectionObjects entries infos i = .ok objs →
      objs.map SectionObject.beginOffset = infos.map SectionInfo.beginOffset ∧
      objs.map SectionObject.dataType = infos.map SectionInfo.dataType
  | [], i, objs, h => by
    have : objs = [] := (Except.ok.injEq .. ▸ h).symm
    subst this
    exact ⟨rfl, rfl⟩
  | info :: rest, i, objs, h => by
    obtain ⟨items, objs', hobjs, hr, hhead⟩ :=
      buildSectionObjects_ok_cases entries info rest i objs h
    obtain ⟨ih1, ih2⟩ := buildSectionObjects_offsets entries rest (i + 1) objs' hr
    subst hobjs
    exact ⟨by rw [List.map_cons, List.map_cons, ih1], by rw [List.map_cons, List.map_cons, ih2]⟩

theorem buildSectionObjects_ok_of_names (entries : List MetaEntry) :
    ∀ (infos : List SectionInfo) (i : Nat),
      (∀ entry ∈ entries, ∀ kv ∈ entry.2, valueEncodable kv.2) →
      (∀ j inf entry, infos.get? j = some inf → entries.get? (i + j) = some entry →
        entry.1 = inf.name) →
      ∃ objs, buildSectionObjects entries infos i = .ok objs
  | [], i, henc, hnm => ⟨[], rfl⟩
  | info :: rest, i, henc, hnm => by
    have hnm' : ∀ j inf entry, rest.get? j = some inf →
        entries.get? (i + 1 + j) = some entry → entry.1 = inf.name := by
      intro j inf entry hj hentry
      have harith : i + 1 + j = i + (j + 1) := by omega
      exact hnm (j + 1) inf entry (by simpa using hj) (harith ▸ hentry)
    obtain ⟨objs', hr⟩ := buildSectionObjects_ok_of_names entries rest (i + 1) henc hnm'
    rw [buildSectionObjects]
    cases hg : entries.get? i with
    | none =>
      dsimp only
      rw [hr]
      exact ⟨_, rfl⟩
    | some entry =>
      have hname : entry.1 = info.name :=
        hnm 0 info entry (by simp) (by simpa using hg)
      dsimp only
      rw [if_neg (not_not.mpr hname)]
      have henc' : ∀ kv ∈ entry.2, valueEncodable kv.2 :=
        henc entry (List.get?_mem hg)
      obtain ⟨items, hitems⟩ := mapPairs_ok entry.2 henc'
      rw [hitems]
      dsimp only
      rw [hr]
      exact ⟨_, rfl⟩

theorem buildSectionObjects_mismatch_of (entries : List MetaEntry) :
    ∀ (infos : List SectionInfo) (i : Nat),
      (∀ entry ∈ entries, ∀ kv ∈ entry.2, valueEncodable kv.2) →
      ∀ j inf entry, infos.get? j = some inf → entries.get? (i + j) = some entry →
        entry.1 ≠ inf.name →
      ∃ m s k, buildSectionObjects entries infos i = .error (.nameMismatch m s k)
  | [], i, henc, j, inf, entry, hj, hentry, hne => by cases hj
  | info :: rest, i, henc, j, inf, entry, hj, hentry, hne => by
    rw [buildSectionObjects]
    cases hg : entries.get? i with
    | none =>
      dsimp only
      cases j with
      | zero =>
        rw [Nat.add_zero] at hentry
        rw [hg] at hentry
        cases hentry
      | succ j' =>
        have harith : i + (j' + 1) = i + 1 + j' := by omega
        obtain ⟨m, s, k, hrec⟩ := buildSectionObjects_mismatch_of entries rest (i + 1) henc
          j' inf entry (by simpa using hj) (harith ▸ hentry) hne
        rw [hrec]
        exact ⟨m, s, k, rfl⟩
    | some entry0 =>
      dsimp only
      by_cases hname : entry0.1 ≠ info.name
      · rw [if_pos hname]
        exact ⟨entry0.1, info.name, i, rfl⟩
      · rw [if_neg hname]
        cases j with
        | zero =>
          rw [Nat.add_zero, hg] at hentry
          injection hentry with h1
          subst h1
          have h2 : info = inf := by simpa using hj
          subst h2
          exact absurd (not_not.mp hname) hne
        | succ j' =>
          have henc' : ∀ kv ∈ entry0.2, valueEncodable kv.2 :=
            henc entry0 (List.get?_mem hg)
          obtain ⟨items, hitems⟩ := mapPairs_ok entry0.2 henc'
          rw [hitems]
          dsimp only
          have harith : i + (j' + 1) = i + 1 + j' := by omega
          obtain ⟨m, s, k, hrec⟩ := buildSectionObjects_mismatch_of entries rest (i + 1) henc
            j' inf entry (by simpa using hj) (harith ▸ hentry) hne
          rw [hrec]
          exact ⟨m, s, k, rfl⟩

theorem buildSectionObjects_mismatch_to (entries : List MetaEntry) :
    ∀ (infos : List SectionInfo) (i : Nat) (m s : String) (k : Nat),
      buildSectionObjects entries infos i = .error (.nameMismatch m s k) →
      ∃ j inf entry, infos.get? j = some inf ∧ entries.get? (i + j) = some entry ∧
        entry.1 ≠ inf.name
  | [], i, m, s, k, h => by cases h
  | info :: rest, i, m, s, k, h => by
    rw [buildSectionObjects] at h
    cases hg : entries.get? i with
    | none =>
      rw [hg] at h
      dsimp only at h
      cases hr : buildSectionObjects entries rest (i + 1) with
      | error e =>
        rw [hr] at h
        injection h with h1
        subst h1
        obtain ⟨j, inf, entry, hj, hentry, hne⟩ :=
          buildSectionObjects_mismatch_to entries rest (i + 1) m s k hr
        have harith : i + 1 + j = i + (j + 1) := by omega
        exact ⟨j + 1, inf, entry, by simpa using hj, harith ▸ hentry, hne⟩
      | ok objs =>
        rw [hr] at h
        cases h
    | some entry0 =>
      rw [hg] at h
      dsimp only at h
      by_cases hname : entry0.1 ≠ info.name
      · exact ⟨0, info, entry0, by simp, by simpa using hg, hname⟩
      · rw [if_neg hname] at h
        cases hm : mapPairs entry0.2 with
        | error e =>
          rw [hm] at h
          injection h with h1
          obtain ⟨n, hn⟩ := mapPairs_error_shape entry0.2 e hm
          rw [h1] at hn
          cases hn
        | ok items =>
          rw [hm] at h
          dsimp only at h
          cases hr : buildSectionObjects entries rest (i + 1) with
          | error e =>
            rw [hr] at h
            injection h with h1
            subst h1
            obtain ⟨j, inf, entry, hj, hentry, hne⟩ :=
              buildSectionObjects_mismatch_to entries rest (i + 1) m s k hr
            have harith : i + 1 + j = i + (j + 1) := by omega
            exact ⟨j + 1, inf, entry, by simpa using hj, harith ▸ hentry, hne⟩
          | ok objs =>
            rw [hr] at h
            cases h

theorem buildSectionObjects_congr (entries entries' : List MetaEntry) :
    ∀ (infos : List SectionInfo) (i : Nat),
      (∀ j, j < infos.length → entries.get? (i + j) = entries'.get? (i + j)) →
      buildSectionObjects entries infos i = buildSectionObjects entries' infos i
  | [], i, hagree => rfl
  | info :: rest, i, hagree => by
    have hrec := buildSectionObjects_congr entries entries' rest (i + 1)
      (fun j hj => by
        have harith : i + 1 + j = i + (j + 1) := by omega
        rw [harith]
        exact hagree (j + 1) (by simpa using Nat.succ_lt_succ hj))
    have h0 := hagree 0 (by simp)
    rw [Nat.add_zero] at h0
    rw [buildSectionObjects, buildSectionObjects, ← h0, hrec]

/-! ## The write pipeline assembled -/

theorem buildHeader_of_objs (infos : List SectionInfo) (entries : List MetaEntry)
    (objs : List SectionObject) (h : buildSectionObjects entries infos 0 = .ok objs) :
    buildHeader infos entries = .ok ⟨[⟨"author", .string "The ODML Authors"⟩], objs⟩ := by
  rw [buildHeader]
  dsimp only [create_key_value_pair]
  rw [h]

theorem buildHeader_of_error (infos : List SectionInfo) (entries : List MetaEntry)
    (e : WriteError) (h : buildSectionObjects entries infos 0 = .error e) :
    buildHeader infos entries = .error e := by
  rw [buildHeader]
  dsimp only [create_key_value_pair]
  rw [h]

theorem buildHeader_ok_cases (infos : List SectionInfo) (entries : List MetaEntry)
    (h : HeaderData) (hh : buildHeader infos entries = .ok h) :
    h.systemMetadata = [⟨"author", .string "The ODML Authors"⟩] ∧
    buildSectionObjects entries infos 0 = .ok h.sections := by
  rw [buildHeader] at hh
  dsimp only [create_key_value_pair] at hh
  cases hso : buildSectionObjects entries infos 0 with
  | error e =>
    rw [hso] at hh
    cases hh
  | ok objs =>
    rw [hso] at hh
    injection hh with h1
    rw [← h1]
    exact ⟨rfl, rfl⟩

theorem isEmpty_ne_true (files : List InputFile) (h : files ≠ []) :
    ¬ files.isEmpty = true := by
  cases files with
  | nil => exact absurd rfl h
  | cons a l => simp [List.isEmpty]

theorem litertlm_write_eq_core (pp : List Nat → Option (List Nat)) (z : List Nat → List Nat)
    (enc : HeaderData → List Nat) (files : List InputFile) (s : String)
    (entries : List MetaEntry) (hne : files ≠ [])
    (hp : parse_metadata_string s = .ok entries) :
    litertlm_write pp z enc files s = litertlm_write_core pp z enc files entries := by
  rw [litertlm_write, if_neg (isEmpty_ne_true files hne)]
  rw [hp]

theorem litertlm_write_core_eval_secerr (pp : List Nat → Option (List Nat))
    (z : List Nat → List Nat) (enc : HeaderData → List Nat) (files : List InputFile)
    (entries : List MetaEntry) (f1 : List Nat) (e : WriteError) (hne : files ≠ [])
    (hsec : writeSections pp z preambleFile files = (f1, .error e)) :
    litertlm_write_core pp z enc files entries = (some f1, .error e) := by
  rw [litertlm_write_core, if_neg (isEmpty_ne_true files hne)]
  rw [hsec]

theorem litertlm_write_core_eval_hdrerr (pp : List Nat → Option (List Nat))
    (z : List Nat → List Nat) (enc : HeaderData → List Nat) (files : List InputFile)
    (entries : List MetaEntry) (f1 : List Nat) (infos : List SectionInfo) (e : WriteError)
    (hne : files ≠ [])
    (hsec : writeSections pp z preambleFile files = (f1, .ok infos))
    (hhdr : buildHeader infos entries = .error e) :
    litertlm_write_core pp z enc files entries = (some f1, .error e) := by
  rw [litertlm_write_core, if_neg (isEmpty_ne_true files hne)]
  rw [hsec]
  dsimp only
  rw [hhdr]

theorem litertlm_write_core_eval_toobig (pp : List Nat → Option (List Nat))
    (z : List Nat → List Nat) (enc : HeaderData → List Nat) (files : List InputFile)
    (entries : List MetaEntry) (f1 : List Nat) (infos : List SectionInfo) (h : HeaderData)
    (hne : files ≠ [])
    (hsec : writeSections pp z preambleFile files = (f1, .ok infos))
    (hhdr : buildHeader infos entries = .ok h)
    (hbig : BLOCK_SIZE < HEADER_BEGIN_BYTE_OFFSET + (enc h).length) :
    litertlm_write_core pp z enc files entries =
      (some (writeAt f1 HEADER_BEGIN_BYTE_OFFSET (enc h)), .error .headerTooBig) := by
  rw [litertlm_write_core, if_neg (isEmpty_ne_true files hne)]
  rw [hsec]
  dsimp only
  rw [hhdr]
  dsimp only
  rw [if_pos hbig]

theorem litertlm_write_core_eval_ok (pp : List Nat → Option (List Nat))
    (z : List Nat → List Nat) (enc : HeaderData → List Nat) (files : List InputFile)
    (entries : List MetaEntry) (f1 : List Nat) (infos : List SectionInfo) (h : HeaderData)
    (hne : files ≠ [])
    (hsec : writeSections pp z preambleFile files = (f1, .ok infos))
    (hhdr : buildHeader infos entries = .ok h)
    (hfit : ¬ BLOCK_SIZE < HEADER_BEGIN_BYTE_OFFSET + (enc h).length) :
    litertlm_write_core pp z enc files entries =
      (some (writeAt (writeAt f1 HEADER_BEGIN_BYTE_OFFSET (enc h))
               HEADER_END_LOCATION_BYTE_OFFSET
               (u64le (HEADER_BEGIN_BYTE_OFFSET + (enc h).length))), .ok h) := by
  rw [litertlm_write_core, if_neg (isEmpty_ne_true files hne)]
  rw [hsec]
  dsimp only
  rw [hhdr]
  dsimp only
  rw [if_neg hfit]

theorem litertlm_write_success_shape (pp : List Nat → Option (List Nat))
    (z : List Nat → List Nat) (enc : HeaderData → List Nat) (files : List InputFile)
    (s : String) (f : List Nat) (h : HeaderData)
    (hw : litertlm_write pp z enc files s = (some f, .ok h)) :
    ∃ entries f1 infos, files ≠ [] ∧ parse_metadata_string s = .ok entries ∧
      writeSections pp z preambleFile files = (f1, .ok infos) ∧
      buildHeader infos entries = .ok h ∧
      HEADER_BEGIN_BYTE_OFFSET + (enc h).length ≤ BLOCK_SIZE ∧
      f = writeAt (writeAt f1 HEADER_BEGIN_BYTE_OFFSET (enc h))
            HEADER_END_LOCATION_BYTE_OFFSET
            (u64le (HEADER_BEGIN_BYTE_OFFSET + (enc h).length)) := by
  by_cases hne : files.isEmpty
  · rw [litertlm_write, if_pos hne] at hw
    exact absurd (congrArg Prod.fst hw) (by simp)
  · have hne' : files ≠ [] := by
      intro hcontra
      rw [hcontra] at hne
      exact hne rfl
    rw [litertlm_write, if_neg hne] at hw
    cases hp : parse_metadata_string s with
    | error e =>
      rw [hp] at hw
      dsimp only at hw
      exact absurd (congrArg Prod.fst hw) (by simp)
    | ok entries =>
      rw [hp] at hw
      dsimp only at hw
      rw [litertlm_write_core, if_neg hne] at hw
      cases hsec : writeSections pp z preambleFile files with
      | mk f1 r =>
        rw [hsec] at hw
        cases r with
        | error e =>
          dsimp only at hw
          exact absurd (congrArg Prod.snd hw) (by simp)
        | ok infos =>
          dsimp only at hw
          cases hhdr : buildHeader infos entries with
          | error e =>
            rw [hhdr] at hw
            dsimp only at hw
            exact absurd (congrArg Prod.snd hw) (by simp)
          | ok h' =>
            rw [hhdr] at hw
            dsimp only at hw
            by_cases hfit : BLOCK_SIZE < HEADER_BEGIN_BYTE_OFFSET + (enc h').length
            · rw [if_pos hfit] at hw
              exact absurd (congrArg Prod.snd hw) (by simp)
            · rw [if_neg hfit] at hw
              have hsnd : Except.ok h' = Except.ok h := congrArg Prod.snd hw
              injection hsnd with hsnd'
              subst hsnd'
              have hfst : some (writeAt (writeAt f1 HEADER_BEGIN_BYTE_OFFSET (enc h'))
                  HEADER_END_LOCATION_BYTE_OFFSET
                  (u64le (HEADER_BEGIN_BYTE_OFFSET + (enc h').length))) = some f :=
                congrArg Prod.fst hw
              injection hfst with hfst'
              exact ⟨entries, f1, infos, hne', rfl, rfl, hhdr, by omega, hfst'.symm⟩

/-! ## Reading back a successfully written container -/

theorem extract_preambleFile_eq (p n : Nat) (h : p + n ≤ 20) :
    extractBytes preambleFile p n = extractBytes preambleBytes p n := by
  rw [preambleFile, write_padding]
  exact extract_append_left _ _ p n (by rw [preambleBytes_length]; omega)

theorem extract_preambleBytes_magic : extractBytes preambleBytes 0 8 = magicBytes := by decide

theorem extract_preambleBytes_major :
    extractBytes preambleBytes 8 4 = u32le LITERTLM_MAJOR_VERSION := by decide

theorem extract_preambleBytes_minor :
    extractBytes preambleBytes 12 4 = u32le LITERTLM_MINOR_VERSION := by decide

theorem extract_preambleBytes_patch :
    extractBytes preambleBytes 16 4 = u32le LITERTLM_PATCH_VERSION := by decide

theorem read_litertlm_header_of_write (dec : List Nat → HeaderData)
    (pp : List Nat → Option (List Nat)) (z : List Nat → List Nat)
    (enc : HeaderData → List Nat) (files : List InputFile) (s : String)
    (f : List Nat) (h : HeaderData)
    (hw : litertlm_write pp z enc files s = (some f, .ok h))
    (hdec : dec (enc h) = h) :
    read_litertlm_header dec f =
      .ok ((LITERTLM_MAJOR_VERSION, LITERTLM_MINOR_VERSION, LITERTLM_PATCH_VERSION), h) := by
  obtain ⟨entries, f1, infos, hne, hp, hsec, hhdr, hfit, hf⟩ :=
    litertlm_write_success_shape pp z enc files s f h hw
  obtain ⟨t, ht⟩ := writeSections_extends pp z files preambleFile f1 infos hsec
  simp only [HEADER_BEGIN_BYTE_OFFSET, HEADER_END_LOCATION_BYTE_OFFSET, BLOCK_SIZE] at hfit hf
  have hfit' : 32 + (enc h).length ≤ 16384 := by omega
  have hf1len : 16384 ≤ f1.length := by
    rw [ht, List.length_append, preambleFile_length]
    omega
  have hf2len : (writeAt f1 32 (enc h)).length = f1.length := by
    rw [length_writeAt]
    omega
  have hextract_f1 : ∀ p n, p + n ≤ 20 → extractBytes f1 p n = extractBytes preambleBytes p n := by
    intro p n hpn
    rw [ht, extract_append_left _ _ p n (by rw [preambleFile_length]; omega)]
    exact extract_preambleFile_eq p n hpn
  have hextract_f : ∀ p n, p + n ≤ 20 → extractBytes f p n = extractBytes preambleBytes p n := by
    intro p n hpn
    rw [hf, extract_writeAt_before _ 24 _ p n (by omega) (by omega),
      extract_writeAt_before _ 32 _ p n (by omega) (by omega)]
    exact hextract_f1 p n hpn
  have hmagic : extractBytes f 0 8 = magicBytes := by
    rw [hextract_f 0 8 (by omega)]
    exact extract_preambleBytes_magic
  have hmaj : extractBytes f 8 4 = u32le LITERTLM_MAJOR_VERSION := by
    rw [hextract_f 8 4 (by omega)]
    exact extract_preambleBytes_major
  have hmin : extractBytes f 12 4 = u32le LITERTLM_MINOR_VERSION := by
    rw [hextract_f 12 4 (by omega)]
    exact extract_preambleBytes_minor
  have hpat : extractBytes f 16 4 = u32le LITERTLM_PATCH_VERSION := by
    rw [hextract_f 16 4 (by omega)]
    exact extract_preambleBytes_patch
  have hhe : extractBytes f 24 8 = u64le (32 + (enc h).length) := by
    rw [hf, ← u64le_length (32 + (enc h).length)]
    exact extract_writeAt_self _ 24 _ (by omega)
  have hbody : extractBytes f 32 (enc h).length = enc h := by
    rw [hf, extract_writeAt_after _ 24 _ 32 (enc h).length (by omega) (by rw [u64le_length])]
    exact extract_writeAt_self f1 32 (enc h) (by omega)
  rw [read_litertlm_header, if_neg (fun hcon => hcon hmagic)]
  dsimp only [HEADER_BEGIN_BYTE_OFFSET, HEADER_END_LOCATION_BYTE_OFFSET]
  rw [hmaj, hmin, hpat, hhe, bytesLE_u64le _ (by omega)]
  have harith : 32 + (enc h).length - 32 = (enc h).length := by omega
  rw [harith, hbody, hdec]
  rw [bytesLE_u32le LITERTLM_MAJOR_VERSION (by norm_num [LITERTLM_MAJOR_VERSION]),
    bytesLE_u32le LITERTLM_MINOR_VERSION (by norm_num [LITERTLM_MINOR_VERSION]),
    bytesLE_u32le LITERTLM_PATCH_VERSION (by norm_num [LITERTLM_PATCH_VERSION])]

/-! ## Support lemmas for the metadata grammar -/

theorem mk_data (s : String) : String.mk s.data = s := rfl

theorem data_ne_nil (s : String) (h : s ≠ "") : s.data ≠ [] := by
  intro hc
  exact h (by rw [← mk_data s, hc])

theorem splitCh_of_not_mem (sep : Char) :
    ∀ (l : List Char), sep ∉ l → splitCh sep l = [l]
  | [], _ => rfl
  | c :: rest, h => by
    have hc : ¬ c = sep := fun hcc => h (hcc ▸ List.mem_cons_self ..)
    have hrest : sep ∉ rest := fun hm => h (List.mem_cons_of_mem _ hm)
    rw [splitCh, splitCh_of_not_mem sep rest hrest]
    simp [hc]

theorem splitOnceP_of_none (p : Char → Bool) :
    ∀ (l : List Char), (∀ c ∈ l, p c = false) → splitOnceP p l = none
  | [], _ => rfl
  | c :: rest, h => by
    rw [splitOnceP, if_neg (by rw [h c (List.mem_cons_self ..)]; exact fun hc => nomatch hc),
      splitOnceP_of_none p rest (fun x hx => h x (List.mem_cons_of_mem _ hx))]

theorem splitOnceP_append (p : Char → Bool) (c0 : Char) (r : List Char) (hc : p c0 = true) :
    ∀ (l : List Char), (∀ c ∈ l, p c = false) → splitOnceP p (l ++ c0 :: r) = some (l, r)
  | [], _ => by
    rw [List.nil_append, splitOnceP, if_pos hc]
  | c :: rest, h => by
    rw [List.cons_append, splitOnceP,
      if_neg (by rw [h c (List.mem_cons_self ..)]; exact fun hcc => nomatch hcc),
      splitOnceP_append p c0 r hc rest (fun x hx => h x (List.mem_cons_of_mem _ hx))]

theorem splitOnce_of_not_mem (sep : Char) (l : List Char) (h : sep ∉ l) :
    splitOnce sep l = none := by
  rw [splitOnce]
  exact splitOnceP_of_none _ l (fun c hc => by
    rw [beq_eq_false_iff_ne]
    exact fun hcc => h (hcc ▸ hc))

theorem splitOnce_append (sep : Char) (l r : List Char) (h : sep ∉ l) :
    splitOnce sep (l ++ sep :: r) = some (l, r) := by
  rw [splitOnce]
  exact splitOnceP_append _ sep r (by simp) l (fun c hc => by
    rw [beq_eq_false_iff_ne]
    exact fun hcc => h (hcc ▸ hc))

/-! ## The claims -/

/-- C1: for every run of `litertlm_write` that succeeds (which requires a
non-empty classifiable input list and positionally matching well-formed
metadata), reading the written container with `read_litertlm_header`
recovers the version triple 1.3.0 and the written header: the ordered
section data-type tags equal the input files' classifications, and each
section's key/value items are exactly the positional metadata entry's
pairs encoded by `create_key_value_pair` (same key, same value, same
value-type tag), empty when no entry exists.  The structured-table codec
is spec-modelled as the pair `enc`/`dec` with the spec's round-trip
contract assumed at the written header. -/
theorem c1_write_read_roundtrip (dec : List Nat → HeaderData)
    (pp : List Nat → Option (List Nat)) (z : List Nat → List Nat)
    (enc : HeaderData → List Nat) (files : List InputFile) (s : String)
    (f : List Nat) (h : HeaderData) (entries : List MetaEntry)
    (hw : litertlm_write pp z enc files s = (some f, .ok h))
    (hparse : parse_metadata_string s = .ok entries)
    (hdec : dec (enc h) = h) :
    read_litertlm_header dec f =
      .ok ((LITERTLM_MAJOR_VERSION, LITERTLM_MINOR_VERSION, LITERTLM_PATCH_VERSION), h) ∧
    h.sections.map SectionObject.dataType =
      files.map (fun file => (get_section_type_and_name file.name).1) ∧
    (∀ i sec, h.sections.get? i = some sec →
      match entries.get? i with
      | none => sec.items = []
      | some entry => mapPairs entry.2 = .ok sec.items) := by
  refine ⟨read_litertlm_header_of_write dec pp z enc files s f h hw hdec, ?_, ?_⟩ <;>
  · obtain ⟨entries0, f1, infos, hne, hp, hsec, hhdr, hfit, hf⟩ :=
      litertlm_write_success_shape pp z enc files s f h hw
    have heq : entries0 = entries := by
      rw [hparse] at hp
      injection hp with hp'
      exact hp'.symm
    rw [heq] at hhdr
    obtain ⟨hsys, hobjs⟩ := buildHeader_ok_cases infos entries h hhdr
    first
    | -- the data-type tags
      rw [(buildSectionObjects_offsets entries infos 0 h.sections hobjs).2]
      exact writeSections_types pp z files preambleFile f1 infos hsec
    | -- the per-section items
      intro i sec hget
      obtain ⟨hlen, hidx⟩ := buildSectionObjects_spec entries infos 0 h.sections hobjs
      have hlt : i < h.sections.length := by
        cases hlt : Nat.decLt i h.sections.length with
        | isTrue ht => exact ht
        | isFalse hf2 =>
          rw [List.get?_eq_none.mpr (by omega)] at hget
          cases hget
      cases hinf : infos.get? i with
      | none =>
        rw [List.get?_eq_none] at hinf
        omega
      | some inf =>
        have := hidx i inf sec hinf hget
        have hm := this.2.2.2
        rw [Nat.zero_add] at hm
        cases hge : entries.get? i with
        | none =>
          rw [hge] at hm
          exact hm
        | some entry =>
          rw [hge] at hm
          exact hm.2

/-- C2: for every successful write, every section begin offset recorded
in the header is a multiple of the block size 16384, and the first
section's begin offset is at least 16384. -/
theorem c2_block_alignment (pp : List Nat → Option (List Nat)) (z : List Nat → List Nat)
    (enc : HeaderData → List Nat) (files : List InputFile) (s : String)
    (f : List Nat) (h : HeaderData)
    (hw : litertlm_write pp z enc files s = (some f, .ok h)) :
    (∀ sec ∈ h.sections, sec.beginOffset % BLOCK_SIZE = 0) ∧
    (∀ sec, h.sections.head? = some sec → BLOCK_SIZE ≤ sec.beginOffset) := by
  obtain ⟨entries, f1, infos, hne, hp, hsec, hhdr, hfit, hf⟩ :=
    litertlm_write_success_shape pp z enc files s f h hw
  obtain ⟨hsys, hobjs⟩ := buildHeader_ok_cases infos entries h hhdr
  have hoff := (buildSectionObjects_offsets entries infos 0 h.sections hobjs).1
  have halign := writeSections_aligned pp z files preambleFile f1 infos hsec
    (by rw [preambleFile_length]; decide) (by rw [preambleFile_length]; decide)
  have hmem : ∀ sec ∈ h.sections, sec.beginOffset % BLOCK_SIZE = 0 ∧
      BLOCK_SIZE ≤ sec.beginOffset := by
    intro sec hmem
    have h1 : sec.beginOffset ∈ h.sections.map SectionObject.beginOffset :=
      List.mem_map_of_mem _ hmem
    rw [hoff] at h1
    obtain ⟨inf, hinf, heq⟩ := List.mem_map.mp h1
    exact heq ▸ halign inf hinf
  exact ⟨fun sec hs => (hmem sec hs).1,
    fun sec hhead => (hmem sec (List.mem_of_mem_head? hhead)).2⟩

/-- C3 counterexample: the claim says a bare section segment with no `:`
is accepted with zero key/value pairs; on the code,
`parse_metadata_string "ab"` raises the section-format `ValueError`
instead of returning `[("ab", [])]` (the repository's own test
`test_invalid_metadata_format_missing_colon` expects the error). -/
theorem c3_counterexample :
    parse_metadata_string "ab" = .error "Invalid section metadata format: ab" ∧
    parse_metadata_string "ab" ≠ .ok [("ab", [])] := by
  constructor
  · decide
  · decide

/-- C3 (amended): a non-empty section segment with no `:` always raises
the section-format error; a section with zero key/value pairs is written
with a trailing `:` (empty remainder), which parses to that section with
an empty pair list. -/
theorem c3_amended_bare_section (name : String) (h1 : name ≠ "")
    (h2 : ':' ∉ name.data) (h3 : ';' ∉ name.data) :
    parse_metadata_string name = .error ("Invalid section metadata format: " ++ name) ∧
    parse_metadata_string (name ++ ":") = .ok [(name, [])] := by
  constructor
  · rw [parse_metadata_string, if_neg h1, splitCh_of_not_mem ';' name.data h3,
      parseSections, if_neg (data_ne_nil name h1), splitOnce_of_not_mem ':' name.data h2,
      mk_data]
  · have hdata : (name ++ ":").data = name.data ++ ':' :: [] := by
      rw [String.data_append]
    have hne2 : name ++ ":" ≠ "" := by
      intro hc
      have : (name ++ ":").data = [] := by rw [hc]
      rw [hdata] at this
      simp at this
    have hsemi : ';' ∉ (name ++ ":").data := by
      rw [hdata]
      intro hm
      cases List.mem_append.mp hm with
      | inl hl => exact h3 hl
      | inr hr => simp at hr
    rw [parse_metadata_string, if_neg hne2, splitCh_of_not_mem ';' _ hsemi,
      parseSections, if_neg (data_ne_nil _ hne2), hdata,
      splitOnce_append ':' name.data [] h2]
    dsimp only
    rw [if_pos rfl]
    dsimp only [parseSections]

/-- C4: `_parse_metadata_value` types a value string by the first
matching rule in order (case-insensitive boolean literal, then Python
`int()`, then Python `float()`, else the verbatim string), and the empty
metadata string parses to an empty entry sequence. -/
theorem c4_value_typing (v : String) :
    (pyLower v = "true" → parse_metadata_value v = .bool true) ∧
    (pyLower v = "false" → parse_metadata_value v = .bool false) ∧
    (pyLower v ≠ "true" → pyLower v ≠ "false" →
      ∀ n, pyIntParse v = some n → parse_metadata_value v = .int n) ∧
    (pyLower v ≠ "true" → pyLower v ≠ "false" → pyIntParse v = none →
      ∀ q, pyFloatParse v = some q → parse_metadata_value v = .float q) ∧
    (pyLower v ≠ "true" → pyLower v ≠ "false" → pyIntParse v = none →
      pyFloatParse v = none → parse_metadata_value v = .str v) ∧
    parse_metadata_string "" = .ok [] := by
  refine ⟨?_, ?_, ?_, ?_, ?_, rfl⟩
  · intro h
    rw [parse_metadata_value, if_pos h]
  · intro h
    have h1 : pyLower v ≠ "true" := by rw [h]; decide
    rw [parse_metadata_value, if_neg h1, if_pos h]
  · intro h1 h2 n h3
    rw [parse_metadata_value, if_neg h1, if_neg h2, h3]
  · intro h1 h2 h3 q h4
    rw [parse_metadata_value, if_neg h1, if_neg h2, h3, h4]
  · intro h1 h2 h3 h4
    rw [parse_metadata_value, if_neg h1, if_neg h2, h3, h4]

/-- C5: the writer rejects an empty input-file list with the
no-input-files `ValueError` before the output path is opened: the file
component of the result is `none` for every codec, collaborator and
metadata string (even an ill-formed one, since the check precedes
parsing). -/
theorem c5_empty_input_rejected (pp : List Nat → Option (List Nat))
    (z : List Nat → List Nat) (enc : HeaderData → List Nat) (s : String) :
    litertlm_write pp z enc [] s = (none, .error .noInputFiles) := rfl

/-- C6: given a successful section-writing phase and metadata entries
whose values are all encodable, `litertlm_write` fails with a
name-mismatch error exactly when some index with both an input file and a
metadata entry has the entry's section name differing from the file's
classified canonical name; on success, sections beyond the metadata
list's length carry an empty item list (so supplying fewer entries than
files is by itself not an error). -/
theorem c6_name_mismatch_iff (pp : List Nat → Option (List Nat)) (z : List Nat → List Nat)
    (enc : HeaderData → List Nat) (files : List InputFile) (s : String)
    (entries : List MetaEntry) (f1 : List Nat) (infos : List SectionInfo)
    (hne : files ≠ [])
    (hparse : parse_metadata_string s = .ok entries)
    (hsec : writeSections pp z preambleFile files = (f1, .ok infos))
    (henc : ∀ entry ∈ entries, ∀ kv ∈ entry.2, valueEncodable kv.2) :
    ((∃ m nm k, (litertlm_write pp z enc files s).2 = .error (.nameMismatch m nm k)) ↔
      (∃ i file entry, files.get? i = some file ∧ entries.get? i = some entry ∧
        entry.1 ≠ (get_section_type_and_name file.name).2)) ∧
    (∀ h, (litertlm_write pp z enc files s).2 = .ok h →
      ∀ i sec, h.sections.get? i = some sec → entries.length ≤ i → sec.items = []) := by
  rw [litertlm_write_eq_core pp z enc files s entries hne hparse]
  have hnames := writeSections_names pp z files preambleFile f1 infos hsec
  have hlen := writeSections_length pp z files preambleFile f1 infos hsec
  have htrans : ∀ i, (infos.get? i).map SectionInfo.name =
      (files.get? i).map (fun file => (get_section_type_and_name file.name).2) := by
    intro i
    rw [← List.get?_map, ← List.get?_map, hnames]
  have hiff2 : (∃ i inf entry, infos.get? i = some inf ∧ entries.get? i = some entry ∧
      entry.1 ≠ inf.name) ↔
      (∃ i file entry, files.get? i = some file ∧ entries.get? i = some entry ∧
        entry.1 ≠ (get_section_type_and_name file.name).2) := by
    constructor
    · rintro ⟨i, inf, entry, hinf, hent, hne'⟩
      have h1 := htrans i
      rw [hinf] at h1
      cases hfile : files.get? i with
      | none => rw [hfile] at h1; cases h1
      | some file =>
        rw [hfile] at h1
        injection h1 with h1'
        have h1'' : inf.name = (get_section_type_and_name file.name).2 := h1'
        exact ⟨i, file, entry, hfile, hent, by rw [← h1'']; exact hne'⟩
    · rintro ⟨i, file, entry, hfile, hent, hne'⟩
      have h1 := htrans i
      rw [hfile] at h1
      cases hinf : infos.get? i with
      | none => rw [hinf] at h1; cases h1
      | some inf =>
        rw [hinf] at h1
        injection h1 with h1'
        have h1'' : inf.name = (get_section_type_and_name file.name).2 := h1'
        exact ⟨i, inf, entry, hinf, hent, by rw [h1'']; exact hne'⟩
  constructor
  · rw [← hiff2]
    constructor
    · rintro ⟨m, nm, k, herr⟩
      cases hbso : buildSectionObjects entries infos 0 with
      | error e =>
        rw [litertlm_write_core_eval_hdrerr pp z enc files entries f1 infos e hne hsec
          (buildHeader_of_error infos entries e hbso)] at herr
        dsimp only at herr
        injection herr with herr'
        rw [herr'] at hbso
        obtain ⟨j, inf, entry, hj, hent, hne'⟩ :=
          buildSectionObjects_mismatch_to entries infos 0 m nm k hbso
        rw [Nat.zero_add] at hent
        exact ⟨j, inf, entry, hj, hent, hne'⟩
      | ok objs =>
        have hbh := buildHeader_of_objs infos entries objs hbso
        by_cases hbig : BLOCK_SIZE <
            HEADER_BEGIN_BYTE_OFFSET + (enc ⟨[⟨"author", .string "The ODML Authors"⟩], objs⟩).length
        · rw [litertlm_write_core_eval_toobig pp z enc files entries f1 infos _ hne hsec hbh
            hbig] at herr
          cases herr
        · rw [litertlm_write_core_eval_ok pp z enc files entries f1 infos _ hne hsec hbh
            hbig] at herr
          cases herr
    · rintro ⟨j, inf, entry, hj, hent, hne'⟩
      obtain ⟨m, nm, k, hbso⟩ := buildSectionObjects_mismatch_of entries infos 0 henc j inf
        entry hj (by rw [Nat.zero_add]; exact hent) hne'
      rw [litertlm_write_core_eval_hdrerr pp z enc files entries f1 infos _ hne hsec
        (buildHeader_of_error infos entries _ hbso)]
      exact ⟨m, nm, k, rfl⟩
  · intro h hok i sec hget hge
    cases hbso : buildSectionObjects entries infos 0 with
    | error e =>
      rw [litertlm_write_core_eval_hdrerr pp z enc files entries f1 infos e hne hsec
        (buildHeader_of_error infos entries e hbso)] at hok
      cases hok
    | ok objs =>
      have hbh := buildHeader_of_objs infos entries objs hbso
      by_cases hbig : BLOCK_SIZE <
          HEADER_BEGIN_BYTE_OFFSET + (enc ⟨[⟨"author", .string "The ODML Authors"⟩], objs⟩).length
      · rw [litertlm_write_core_eval_toobig pp z enc files entries f1 infos _ hne hsec hbh
          hbig] at hok
        cases hok
      · rw [litertlm_write_core_eval_ok pp z enc files entries f1 infos _ hne hsec hbh
          hbig] at hok
        dsimp only at hok
        injection hok with hok'
        rw [← hok'] at hget
        dsimp only at hget
        obtain ⟨hlen2, hidx⟩ := buildSectionObjects_spec entries infos 0 objs hbso
        cases hinf : infos.get? i with
        | none =>
          rw [List.get?_eq_none] at hinf
          have : i < objs.length := by
            cases hd : Nat.decLt i objs.length with
            | isTrue ht => exact ht
            | isFalse hf2 =>
              rw [List.get?_eq_none.mpr (by omega)] at hget
              cases hget
          omega
        | some inf =>
          have := (hidx i inf sec hinf hget).2.2.2
          rw [Nat.zero_add, List.get?_eq_none.mpr hge] at this
          exact this

/-- C7: the section classifier is a total pure function from filename
strings to (data-type, canonical-name) pairs: every filename whose suffix
(the extension computed by `get_file_extension`, i.e. Python
`os.path.splitext`) is `.tflite` classifies as tflite-model/"tflite",
every filename matching none of the listed rules classifies as
generic-binary/"binary_data", and every filename yields exactly one
pair. -/
theorem c7_classifier_total (filename : String) :
    (get_file_extension filename = ".tflite" →
      get_section_type_and_name filename = (.TFLiteModel, K_TFLITE_SECTION_NAME)) ∧
    (get_file_extension filename ≠ ".tflite" → get_file_extension filename ≠ ".pb" →
      get_file_extension filename ≠ ".proto" → get_file_extension filename ≠ ".pbtext" →
      get_file_extension filename ≠ ".prototext" → get_file_extension filename ≠ ".spiece" →
      pyEndsWith filename "tokenizer.json" = false →
      get_section_type_and_name filename = (.GenericBinaryData, K_BINARY_DATA_SECTION_NAME)) ∧
    (∃! tn : AnySectionDataType × String, get_section_type_and_name filename = tn) := by
  refine ⟨?_, ?_, ⟨get_section_type_and_name filename, rfl, fun y hy => hy.symm⟩⟩
  · intro h
    rw [get_section_type_and_name]
    rw [if_pos h]
  · intro h1 h2 h3 h4 h5 h6 h7
    rw [get_section_type_and_name]
    rw [if_neg h1, if_neg (by rintro (h | h | h | h); exacts [h2 h, h3 h, h4 h, h5 h]),
      if_neg h6, if_neg (by rw [h7]; exact fun hc => nomatch hc)]

/-- C8: once the pre-header phases have succeeded, if the encoded
header's end offset (32 plus its length) exceeds the block size 16384,
`litertlm_write` raises the size-limit error after the header bytes have
been written: the output file is exactly the section file with the header
overwritten at offset 32 and nothing rolled back; if the end offset is at
most 16384, no size-limit error is raised and the write completes. -/
theorem c8_header_size_limit (pp : List Nat → Option (List Nat)) (z : List Nat → List Nat)
    (enc : HeaderData → List Nat) (files : List InputFile) (s : String)
    (entries : List MetaEntry) (f1 : List Nat) (infos : List SectionInfo) (h : HeaderData)
    (hne : files ≠ [])
    (hparse : parse_metadata_string s = .ok entries)
    (hsec : writeSections pp z preambleFile files = (f1, .ok infos))
    (hhdr : buildHeader infos entries = .ok h) :
    (BLOCK_SIZE < HEADER_BEGIN_BYTE_OFFSET + (enc h).length →
      litertlm_write pp z enc files s =
        (some (writeAt f1 HEADER_BEGIN_BYTE_OFFSET (enc h)), .error .headerTooBig)) ∧
    (HEADER_BEGIN_BYTE_OFFSET + (enc h).length ≤ BLOCK_SIZE →
      litertlm_write pp z enc files s =
        (some (writeAt (writeAt f1 HEADER_BEGIN_BYTE_OFFSET (enc h))
                 HEADER_END_LOCATION_BYTE_OFFSET
                 (u64le (HEADER_BEGIN_BYTE_OFFSET + (enc h).length))), .ok h)) := by
  constructor
  · intro hbig
    rw [litertlm_write_eq_core pp z enc files s entries hne hparse]
    exact litertlm_write_core_eval_toobig pp z enc files entries f1 infos h hne hsec hhdr hbig
  · intro hfit
    rw [litertlm_write_eq_core pp z enc files s entries hne hparse]
    exact litertlm_write_core_eval_ok pp z enc files entries f1 infos h hne hsec hhdr
      (by omega)

/-- C9: `create_key_value_pair` raises the `ValueError` for every integer
value outside the signed 64-bit range and encodes in-range integers with
the `Int64` value tag; consequently a `litertlm_write` run whose metadata
carries such an out-of-range integer fails with that error. -/
theorem c9_int64_range (k : String) (n : Int) :
    ((n < INT64_MIN ∨ INT64_MAX < n) →
      create_key_value_pair k (.int n) = .error (.intOutOfRange n)) ∧
    (INT64_MIN ≤ n → n ≤ INT64_MAX →
      create_key_value_pair k (.int n) = .ok ⟨k, .int64 n⟩) ∧
    (∀ (pp : List Nat → Option (List Nat)) (z : List Nat → List Nat)
       (enc : HeaderData → List Nat) (content : List Nat)
       (kvs0 : List (String × MetaValue)),
      (n < INT64_MIN ∨ INT64_MAX < n) →
      (litertlm_write_core pp z enc [⟨"a.bin", content⟩]
        [(K_BINARY_DATA_SECTION_NAME, (k, .int n) :: kvs0)]).2 =
        .error (.intOutOfRange n)) := by
  have hout : (n < INT64_MIN ∨ INT64_MAX < n) →
      create_key_value_pair k (.int n) = .error (.intOutOfRange n) := by
    intro hr
    rw [create_key_value_pair, if_neg (by omega)]
  refine ⟨hout, ?_, ?_⟩
  · intro hlo hhi
    rw [create_key_value_pair, if_pos ⟨hlo, hhi⟩]
  · intro pp z enc content kvs0 hr
    have hcl : get_section_type_and_name "a.bin" =
        (.GenericBinaryData, K_BINARY_DATA_SECTION_NAME) := by decide
    have hb : buildPayload pp z
        (get_section_type_and_name (InputFile.mk "a.bin" content).name).1
        ⟨"a.bin", content⟩ = some content := by
      show buildPayload pp z (get_section_type_and_name "a.bin").1 _ = _
      rw [hcl]
      rfl
    have hsec := writeSections_cons_some pp z preambleFile ⟨"a.bin", content⟩ []
      content _ [] hb (writeSections_nil pp z _)
    have hmp : mapPairs ((k, MetaValue.int n) :: kvs0) = .error (.intOutOfRange n) := by
      rw [mapPairs, hout hr]
    have hbso : buildSectionObjects [(K_BINARY_DATA_SECTION_NAME, (k, MetaValue.int n) :: kvs0)]
        [⟨(get_section_type_and_name (InputFile.mk "a.bin" content).name).1,
          (get_section_type_and_name (InputFile.mk "a.bin" content).name).2,
          preambleFile.length, preambleFile.length + content.length⟩] 0 =
        .error (.intOutOfRange n) := by
      rw [buildSectionObjects]
      dsimp only [List.get?]
      rw [if_neg (by
        show ¬ K_BINARY_DATA_SECTION_NAME ≠ _
        rw [not_not]
        show K_BINARY_DATA_SECTION_NAME = (get_section_type_and_name "a.bin").2
        rw [hcl])]
      rw [hmp]
    rw [litertlm_write_core_eval_hdrerr pp z enc [⟨"a.bin", content⟩]
      [(K_BINARY_DATA_SECTION_NAME, (k, MetaValue.int n) :: kvs0)] _ _ _
      (by intro hc; cases hc) hsec
      (buildHeader_of_error _ _ _ hbso)]

/-- C10: surplus parsed metadata entries beyond the input-file count are
silently ignored: the write pipeline after metadata parsing produces the
identical result (same output bytes, same header or error) when the entry
list is truncated to the number of input files, so the surplus entries
are never name-validated and contribute nothing. -/
theorem c10_surplus_entries_ignored (pp : List Nat → Option (List Nat))
    (z : List Nat → List Nat) (enc : HeaderData → List Nat)
    (files : List InputFile) (entries : List MetaEntry) :
    litertlm_write_core pp z enc files (entries.take files.length) =
      litertlm_write_core pp z enc files entries := by
  by_cases hne : files = []
  · subst hne
    rfl
  · cases hsec : writeSections pp z preambleFile files with
    | mk f1 r =>
      cases r with
      | error e =>
        rw [litertlm_write_core_eval_secerr pp z enc files _ f1 e hne hsec,
          litertlm_write_core_eval_secerr pp z enc files entries f1 e hne hsec]
      | ok infos =>
        have hlen := writeSections_length pp z files preambleFile f1 infos hsec
        have hso : buildSectionObjects (entries.take files.length) infos 0 =
            buildSectionObjects entries infos 0 := by
          apply buildSectionObjects_congr
          intro j hj
          rw [Nat.zero_add]
          exact List.get?_take (by omega)
        have hbh : buildHeader infos (entries.take files.length) =
            buildHeader infos entries := by
          rw [buildHeader, buildHeader, hso]
        rw [litertlm_write_core, litertlm_write_core,
          if_neg (isEmpty_ne_true files hne), if_neg (isEmpty_ne_true files hne), hsec]
        dsimp only
        rw [hbh]

/-! ## Concrete runs used by the witnesses -/

/-- Identity stand-in for the protobuf text codec collaborator. -/
def wpp : List Nat → Option (List Nat) := fun l => some l

/-- Identity stand-in for the zlib compressor collaborator. -/
def wz : List Nat → List Nat := fun l => l

/-- A one-byte header encoder stand-in. -/
def wencSmall : HeaderData → List Nat := fun _ => [0]

/-- A header encoder stand-in whose output overflows the block size. -/
def wencBig : HeaderData → List Nat := fun _ => List.replicate 16353 0

/-- One concrete generic-binary input file. -/
def wfiles : List InputFile := [⟨"a.bin", [1, 2, 3]⟩]

/-- The file bytes after the section-writing phase on `wfiles`. -/
def wf1 : List Nat := write_padding (preambleFile ++ [1, 2, 3]) BLOCK_SIZE

/-- The section record for the single section of `wfiles`. -/
def winfo : SectionInfo :=
  ⟨(get_section_type_and_name "a.bin").1, (get_section_type_and_name "a.bin").2,
   preambleFile.length, preambleFile.length + [(1 : Nat), 2, 3].length⟩

/-- The section records of the run on `wfiles`. -/
def winfos : List SectionInfo := [winfo]

/-- One metadata entry matching the classified name of `wfiles`. -/
def wentriesOk : List MetaEntry := [(K_BINARY_DATA_SECTION_NAME, [("k", MetaValue.int 1)])]

/-- The header of the metadata-free run on `wfiles`. -/
def whdrEmpty : HeaderData :=
  ⟨[⟨"author", .string "The ODML Authors"⟩],
   [⟨[], winfo.beginOffset, winfo.endOffset, winfo.dataType⟩]⟩

/-- The header section object of the run with metadata `wentriesOk`. -/
def wsec0 : SectionObject :=
  ⟨[⟨"k", .int64 1⟩], winfo.beginOffset, winfo.endOffset, winfo.dataType⟩

/-- The header of the run with metadata `wentriesOk`. -/
def whdrK : HeaderData := ⟨[⟨"author", .string "The ODML Authors"⟩], [wsec0]⟩

/-- The final container bytes of the successful run with metadata. -/
def wfK : List Nat :=
  writeAt (writeAt wf1 HEADER_BEGIN_BYTE_OFFSET (wencSmall whdrK))
    HEADER_END_LOCATION_BYTE_OFFSET
    (u64le (HEADER_BEGIN_BYTE_OFFSET + (wencSmall whdrK).length))

theorem wfiles_ne : wfiles ≠ [] := by decide

theorem wsec : writeSections wpp wz preambleFile wfiles = (wf1, .ok winfos) := by
  have hb : buildPayload wpp wz
      (get_section_type_and_name (InputFile.mk "a.bin" [1, 2, 3]).name).1
      ⟨"a.bin", [1, 2, 3]⟩ = some [1, 2, 3] := by decide
  exact writeSections_cons_some wpp wz preambleFile ⟨"a.bin", [1, 2, 3]⟩ [] [1, 2, 3]
    wf1 [] hb (writeSections_nil wpp wz _)

theorem wbhEmpty : buildHeader winfos [] = .ok whdrEmpty := by
  have hbso : buildSectionObjects [] winfos 0 =
      .ok [⟨[], winfo.beginOffset, winfo.endOffset, winfo.dataType⟩] := rfl
  exact buildHeader_of_objs winfos [] _ hbso

theorem wbhK : buildHeader winfos wentriesOk = .ok whdrK := by
  have hbso : buildSectionObjects wentriesOk winfos 0 = .ok [wsec0] := rfl
  exact buildHeader_of_objs winfos wentriesOk _ hbso

theorem wWriteK : litertlm_write wpp wz wencSmall wfiles "binary_data:k=1" =
    (some wfK, .ok whdrK) := by
  rw [litertlm_write_eq_core wpp wz wencSmall wfiles "binary_data:k=1" wentriesOk
    wfiles_ne (by decide)]
  exact litertlm_write_core_eval_ok wpp wz wencSmall wfiles wentriesOk wf1 winfos whdrK
    wfiles_ne wsec wbhK (by decide)

/-! ## Witnesses -/

/-- Witness for C1: the concrete run on one binary file with one integer
metadata pair round-trips through the reader. -/
theorem c1_write_read_roundtrip_witness :
    read_litertlm_header (fun _ => whdrK) wfK =
      .ok ((LITERTLM_MAJOR_VERSION, LITERTLM_MINOR_VERSION, LITERTLM_PATCH_VERSION), whdrK) ∧
    whdrK.sections.map SectionObject.dataType =
      wfiles.map (fun file => (get_section_type_and_name file.name).1) ∧
    mapPairs [("k", MetaValue.int 1)] = .ok [⟨"k", .int64 1⟩] := by
  have hc := c1_write_read_roundtrip (fun _ => whdrK) wpp wz wencSmall wfiles
    "binary_data:k=1" wfK whdrK wentriesOk wWriteK (by decide) rfl
  exact ⟨hc.1, hc.2.1, hc.2.2 0 wsec0 rfl⟩

/-- Witness for C2: on the concrete successful run, the single recorded
section sits at offset 16384. -/
theorem c2_block_alignment_witness :
    wsec0.beginOffset % BLOCK_SIZE = 0 ∧ BLOCK_SIZE ≤ wsec0.beginOffset := by
  have hc := c2_block_alignment wpp wz wencSmall wfiles "binary_data:k=1" wfK whdrK wWriteK
  exact ⟨hc.1 wsec0 (List.mem_cons_self ..), hc.2 wsec0 rfl⟩

/-- Witness for C3 (amended) at the section name "ab". -/
theorem c3_amended_bare_section_witness :
    parse_metadata_string "ab" = .error ("Invalid section metadata format: " ++ "ab") ∧
    parse_metadata_string ("ab" ++ ":") = .ok [("ab", [])] :=
  c3_amended_bare_section "ab" (by decide) (by decide) (by decide)

/-- Witness for C4 at the value strings "1.5" and "7". -/
theorem c4_value_typing_witness :
    parse_metadata_value "1.5" = .float (.finite (mkRat 3 2)) ∧
    parse_metadata_value "7" = .int 7 :=
  ⟨(c4_value_typing "1.5").2.2.2.1 (by decide) (by decide) (by decide)
     (.finite (mkRat 3 2)) (by decide),
   (c4_value_typing "7").2.2.1 (by decide) (by decide) 7 (by decide)⟩

/-- Witness for C6: the concrete run with a mismatching metadata name
fails with the name-mismatch error, and the concrete matching run leaves
no surplus-index section with items. -/
theorem c6_name_mismatch_iff_witness :
    ∃ m nm k, (litertlm_write wpp wz wencSmall wfiles "oops:k=1").2 =
      .error (.nameMismatch m nm k) := by
  have hc := c6_name_mismatch_iff wpp wz wencSmall wfiles "oops:k=1"
    [("oops", [("k", MetaValue.int 1)])] wf1 winfos wfiles_ne (by decide) wsec
    (by
      intro entry hent kv hkv
      have he : entry = ("oops", [("k", MetaValue.int 1)]) := by simpa using hent
      subst he
      have hk : kv = ("k", MetaValue.int 1) := by simpa using hkv
      subst hk
      exact ⟨by decide, by decide⟩)
  exact hc.1.mpr ⟨0, ⟨"a.bin", [1, 2, 3]⟩, ("oops", [("k", MetaValue.int 1)]),
    by decide, by decide, by decide⟩

/-- Witness for C7 at "model.tflite" and "data.bin". -/
theorem c7_classifier_total_witness :
    get_section_type_and_name "model.tflite" = (.TFLiteModel, K_TFLITE_SECTION_NAME) ∧
    get_section_type_and_name "data.bin" = (.GenericBinaryData, K_BINARY_DATA_SECTION_NAME) :=
  ⟨(c7_classifier_total "model.tflite").1 (by decide),
   (c7_classifier_total "data.bin").2.1 (by decide) (by decide) (by decide) (by decide)
     (by decide) (by decide) (by decide)⟩

/-- Witness for C8: a 16353-byte header overflows the block and leaves
the partially patched file; a 1-byte header fits and the write
completes. -/
theorem c8_header_size_limit_witness :
    litertlm_write wpp wz wencBig wfiles "" =
      (some (writeAt wf1 HEADER_BEGIN_BYTE_OFFSET (wencBig whdrEmpty)),
       .error .headerTooBig) ∧
    litertlm_write wpp wz wencSmall wfiles "" =
      (some (writeAt (writeAt wf1 HEADER_BEGIN_BYTE_OFFSET (wencSmall whdrEmpty))
               HEADER_END_LOCATION_BYTE_OFFSET
               (u64le (HEADER_BEGIN_BYTE_OFFSET + (wencSmall whdrEmpty).length))),
       .ok whdrEmpty) :=
  ⟨(c8_header_size_limit wpp wz wencBig wfiles "" [] wf1 winfos whdrEmpty
      wfiles_ne rfl wsec wbhEmpty).1
      (by rw [show wencBig whdrEmpty = List.replicate 16353 0 from rfl,
              List.length_replicate]; decide),
   (c8_header_size_limit wpp wz wencSmall wfiles "" [] wf1 winfos whdrEmpty
      wfiles_ne rfl wsec wbhEmpty).2 (by decide)⟩

/-- Witness for C9 at the first integer outside the Int64 range. -/
theorem c9_int64_range_witness :
    create_key_value_pair "k" (.int 9223372036854775808) =
      .error (.intOutOfRange 9223372036854775808) ∧
    create_key_value_pair "k" (.int 5) = .ok ⟨"k", .int64 5⟩ ∧
    (litertlm_write_core wpp wz wencSmall [⟨"a.bin", []⟩]
      [(K_BINARY_DATA_SECTION_NAME, [("k", MetaValue.int 9223372036854775808)])]).2 =
      .error (.intOutOfRange 9223372036854775808) :=
  ⟨(c9_int64_range "k" 9223372036854775808).1 (by decide),
   (c9_int64_range "k" 5).2.1 (by decide) (by decide),
   (c9_int64_range "k" 9223372036854775808).2.2 wpp wz wencSmall [] [] (by decide)⟩
